import Mathlib

/-!
Verification of the n8n-nodes-numeriquai plugin's core logic: the recursive
deep-merge engine (`deepMerge` in `Numeriquai.node.ts` / `MergeInputs.node.ts`),
the permissive JSON-string unwrapping (`safeParseJSON`), and the rule-evaluation
client (`executeEvaluateRules`): request construction, validation order,
endpoint rewriting and error-detail extraction.

JSON values are modelled as a tagged variant; JavaScript objects are modelled
as insertion-ordered association lists with string keys (a real JS object has
pairwise-distinct keys, which theorems assume where it matters).  Numbers are
modelled as integers: every numeric literal the claims exercise is integral and
no arithmetic is performed on them.
-/

set_option autoImplicit false

namespace Numeriquai

/-- JSON value: null, boolean, number, string, array or object.  Objects keep
insertion order, matching JavaScript enumeration order for string keys. -/
inductive Json where
  | null
  | bool (b : Bool)
  | num (n : Int)
  | str (s : String)
  | arr (items : List Json)
  | obj (fields : List (String × Json))

/-- Fields of a JSON object. -/
abbrev JObj := List (String × Json)

/-- Reading `target[key]` on a JS object: the (first) binding of the key. -/
def getKey : JObj → String → Option Json
  | [], _ => none
  | (k', v) :: rest, k => if k' = k then some v else getKey rest k

/-- The assignment `output[key] = v` on a JS object: updates an existing key in
place (keeping its position) or appends a fresh binding. -/
def setKey : JObj → String → Json → JObj
  | [], k, v => [(k, v)]
  | (k', v') :: rest, k, v =>
    if k' = k then (k', v) :: rest else (k', v') :: setKey rest k v

/-- The binding that survives when every binding of `k` is assigned in order:
the last one.  Coincides with `getKey` on duplicate-free objects. -/
def getLastVal : JObj → String → Option Json
  | [], _ => none
  | (k', v) :: rest, k =>
    match getLastVal rest k with
    | some w => some w
    | none => if k' = k then some v else none

mutual

/-- Loop body of `deepMerge` from `Numeriquai.node.ts` (lines 13-38): `t` is
the untouched `target` object, `out` the accumulator initialised to a copy of
`target`, and the third argument the remaining entries of `source`.  Each
source entry is assigned into `out` after the per-key decision `mergeVal`. -/
def mergeFields : JObj → JObj → JObj → JObj
  | _, out, [] => out
  | t, out, (k, sv) :: rest => mergeFields t (setKey out k (mergeVal t k sv)) rest
termination_by t out l => sizeOf l
decreasing_by
  all_goals simp_wf
  all_goals omega

/-- Per-key rule of `deepMerge`: when both the target value and the source
value are objects (in JS terms: `typeof v === 'object'`, not `null`, not an
array) they are merged recursively; otherwise the source value overwrites. -/
def mergeVal : JObj → String → Json → Json
  | t, k, sv =>
    match getKey t k, sv with
    | some (Json.obj tf), Json.obj sf => Json.obj (mergeFields tf tf sf)
    | _, _ => sv
termination_by t k sv => sizeOf sv
decreasing_by
  all_goals simp_wf
  all_goals omega

end

/-- The exported `deepMerge(target, source)`: starts from `{ ...target }` and
folds the source entries through the per-key rule. -/
def deepMerge (target source : JObj) : JObj :=
  mergeFields target target source

theorem mergeFields_nil (t out : JObj) : mergeFields t out [] = out := by
  rw [mergeFields]

theorem mergeFields_cons (t out : JObj) (k : String) (sv : Json) (rest : JObj) :
    mergeFields t out ((k, sv) :: rest) =
      mergeFields t (setKey out k (mergeVal t k sv)) rest := by
  rw [mergeFields]

theorem mergeVal_obj_obj (t : JObj) (k : String) (tf sf : JObj)
    (h : getKey t k = some (Json.obj tf)) :
    mergeVal t k (Json.obj sf) = Json.obj (deepMerge tf sf) := by
  simp [mergeVal, deepMerge, h]

theorem mergeVal_of_getKey_none (t : JObj) (k : String) (sv : Json)
    (h : getKey t k = none) : mergeVal t k sv = sv := by
  cases sv <;> simp [mergeVal, h]

theorem getKey_setKey_self (out : JObj) (k : String) (v : Json) :
    getKey (setKey out k v) k = some v := by
  induction out with
  | nil => simp [setKey, getKey]
  | cons hd rest ih =>
    obtain ⟨k', v'⟩ := hd
    by_cases h : k' = k
    · subst h; simp [setKey, getKey]
    · simp [setKey, getKey, h, ih]

theorem getKey_setKey_ne (out : JObj) (k' k : String) (v : Json) (h : k' ≠ k) :
    getKey (setKey out k' v) k = getKey out k := by
  induction out with
  | nil => simp [setKey, getKey, h]
  | cons hd rest ih =>
    obtain ⟨k0, v0⟩ := hd
    by_cases h0 : k0 = k'
    · subst h0; simp [setKey, getKey, h]
    · simp [setKey, getKey, h0, ih]

/-- Per-key characterisation of the merge loop: the surviving source binding
(the last one, should keys repeat) decides the value; keys absent from the
source keep the accumulator's value. -/
theorem getKey_mergeFields (t : JObj) (s : JObj) (out : JObj) (k : String) :
    getKey (mergeFields t out s) k =
      match getLastVal s k with
      | some sv => some (mergeVal t k sv)
      | none => getKey out k := by
  induction s generalizing out with
  | nil => simp [mergeFields_nil, getLastVal]
  | cons hd rest ih =>
    obtain ⟨k', sv⟩ := hd
    rw [mergeFields_cons, ih]
    rcases hrest : getLastVal rest k with _ | w
    · simp only [getLastVal, hrest]
      by_cases hk : k' = k
      · subst hk; simp [getKey_setKey_self]
      · simp [hk, getKey_setKey_ne _ _ _ _ hk]
    · simp [getLastVal, hrest]

theorem getKey_eq_none_of_not_mem (s : JObj) (k : String)
    (h : k ∉ s.map Prod.fst) : getKey s k = none := by
  induction s with
  | nil => simp [getKey]
  | cons hd rest ih =>
    obtain ⟨k', v⟩ := hd
    simp only [List.map_cons, List.mem_cons] at h
    push_neg at h
    simp [getKey, Ne.symm h.1, ih h.2]

theorem getLastVal_eq_getKey (s : JObj) (k : String)
    (h : (s.map Prod.fst).Nodup) : getLastVal s k = getKey s k := by
  induction s with
  | nil => rfl
  | cons hd rest ih =>
    obtain ⟨k', v⟩ := hd
    simp only [List.map_cons, List.nodup_cons] at h
    by_cases hk : k' = k
    · subst hk
      have : getKey rest k' = none := getKey_eq_none_of_not_mem rest k' h.1
      simp [getLastVal, getKey, ih h.2, this]
    · simp [getLastVal, getKey, hk, ih h.2]
      rcases getKey rest k with _ | w <;> simp [hk]

theorem setKey_append_of_not_mem (out : JObj) (k : String) (v : Json)
    (h : k ∉ out.map Prod.fst) : setKey out k v = out ++ [(k, v)] := by
  induction out with
  | nil => simp [setKey]
  | cons hd rest ih =>
    obtain ⟨k', v'⟩ := hd
    simp only [List.map_cons, List.mem_cons] at h
    push_neg at h
    simp [setKey, Ne.symm h.1, ih h.2]

theorem mergeFields_empty_target (s : JObj) : ∀ out : JObj,
    ((out.map Prod.fst) ++ (s.map Prod.fst)).Nodup → mergeFields [] out s = out ++ s := by
  induction s with
  | nil => intro out _; simp [mergeFields_nil]
  | cons hd rest ih =>
    intro out h
    obtain ⟨k, sv⟩ := hd
    rw [mergeFields_cons, mergeVal_of_getKey_none _ _ _ (by simp [getKey])]
    have hnotmem : k ∉ out.map Prod.fst := by
      intro hmem
      rcases List.nodup_append.mp h with ⟨_, _, hdisj⟩
      exact hdisj hmem (by simp)
    rw [setKey_append_of_not_mem _ _ _ hnotmem]
    rw [ih (out ++ [(k, sv)]) (by simpa using h)]
    simp

/-- Merging into the empty accumulator returns the source object unchanged
(for genuine JS objects, whose keys are pairwise distinct). -/
theorem deepMerge_empty_target (s : JObj) (h : (s.map Prod.fst).Nodup) :
    deepMerge [] s = s := by
  have := mergeFields_empty_target s [] (by simpa using h)
  simpa [deepMerge] using this

/-- Whitespace accepted by the JSON grammar (also what matters for
`String.prototype.trim` on the inputs this development exercises). -/
def isWsChar (c : Char) : Bool := c = ' ' || c = '\t' || c = '\n' || c = '\r'

/-- Drops leading JSON whitespace. -/
def skipWs : List Char → List Char
  | [] => []
  | c :: rest => if isWsChar c then skipWs rest else c :: rest

/-- Boolean prefix test on character lists (first argument is the pattern),
the engine behind the modelled JavaScript string predicates. -/
def startsWithL : List Char → List Char → Bool
  | [], _ => true
  | _ :: _, [] => false
  | p :: ps, c :: cs => p = c && startsWithL ps cs

/-- Model of `String.prototype.trim`: strips whitespace from both ends. -/
def jsTrim (s : String) : String :=
  String.mk ((skipWs ((skipWs s.data).reverse)).reverse)

/-- Model of `s.startsWith(p)`. -/
def jsStartsWith (s p : String) : Bool := startsWithL p.data s.data

/-- Model of `s.endsWith(p)`. -/
def jsEndsWith (s p : String) : Bool := startsWithL p.data.reverse s.data.reverse

/-- Model of `s.slice(1, -1)`: the string without its first and last character. -/
def sliceInner (s : String) : String := String.mk ((s.data.drop 1).dropLast)

/-- The exported `safeParseJSON` (`Numeriquai.node.ts`, lines 43-64), with the
host's `JSON.parse` abstracted as `parse : String → Option Json` (`none` models
a thrown `SyntaxError`).  Non-strings pass through; a string is trimmed and
parsed; when that fails and the trimmed string is wrapped in `\x7b\x7b ...
\x7d\x7d`, one brace is stripped from each end (`slice(1, -1)`) and the result
parsed; when everything fails the original string is returned. -/
def safeParseJSON (parse : String → Option Json) : Json → Json
  | Json.str s =>
    let cleanInput := jsTrim s
    match parse cleanInput with
    | some v => v
    | none =>
      if jsStartsWith cleanInput "\x7b\x7b" && jsEndsWith cleanInput "\x7d\x7d" then
        match parse (sliceInner cleanInput) with
        | some v => v
        | none => Json.str s
      else Json.str s
  | v => v

/-- The per-item preprocessing of `executeFlatMerge` (lines 196-202): every
top-level value is passed through `safeParseJSON`. -/
def itemPrep (parse : String → Option Json) (fields : JObj) : JObj :=
  fields.map (fun kv => (kv.1, safeParseJSON parse kv.2))

/-- Core of `executeFlatMerge` (lines 193-206): the items of all input
connections, in order, folded by `deepMerge` into an accumulator that starts
as the empty object, each item preprocessed by `safeParseJSON` first. -/
def mergeItems (parse : String → Option Json) (items : List JObj) : JObj :=
  items.foldl (fun acc it => deepMerge acc (itemPrep parse it)) []

/-- Defensive normalisation of `executeFlatMerge` (lines 213-217): an array
result is replaced by its first element, or by the empty object when empty;
everything else is kept. -/
def normalizeMergeResult : Json → Json
  | Json.arr (x :: _) => x
  | Json.arr [] => Json.obj []
  | v => v

/-- The value `executeFlatMerge` places in the returned item's `json` field. -/
def flatMergeResult (parse : String → Option Json) (items : List JObj) : Json :=
  normalizeMergeResult (Json.obj (mergeItems parse items))

/-- Body of a JSON string literal after the opening quote: the raw characters
up to the closing quote (escape sequences are outside the modelled fragment). -/
def parseStrChars : List Char → Option (List Char × List Char)
  | [] => none
  | c :: rest =>
    if c = '"' then some ([], rest)
    else if c = '\\' then none
    else (parseStrChars rest).map (fun p => (c :: p.1, p.2))

/-- Longest leading run of decimal digits. -/
def takeDigits : List Char → (List Char × List Char)
  | [] => ([], [])
  | c :: rest =>
    if c.isDigit then
      let p := takeDigits rest
      (c :: p.1, p.2)
    else ([], c :: rest)

/-- Value of a digit string. -/
def digitsVal (ds : List Char) : Nat :=
  ds.foldl (fun n c => n * 10 + (c.toNat - 48)) 0

/-- A continuation that would make the literal a non-integer number. -/
def startsNumTail : List Char → Bool
  | [] => false
  | c :: _ => c = '.' || c = 'e' || c = 'E'

/-- Integer literal with optional leading minus; fractional or exponent tails
are outside the modelled fragment and rejected. -/
def parseIntLit (l : List Char) : Option (Json × List Char) :=
  match l with
  | '-' :: rest =>
    match takeDigits rest with
    | ([], _) => none
    | (ds, r) => if startsNumTail r then none else some (Json.num (-(digitsVal ds : Int)), r)
  | _ =>
    match takeDigits l with
    | ([], _) => none
    | (ds, r) => if startsNumTail r then none else some (Json.num (digitsVal ds), r)

mutual

/-- One JSON value (fuel-indexed recursive descent). -/
def parseVal : Nat → List Char → Option (Json × List Char)
  | 0, _ => none
  | fuel + 1, l0 =>
    let l := skipWs l0
    if startsWithL ['n', 'u', 'l', 'l'] l then some (Json.null, l.drop 4)
    else if startsWithL ['t', 'r', 'u', 'e'] l then some (Json.bool true, l.drop 4)
    else if startsWithL ['f', 'a', 'l', 's', 'e'] l then some (Json.bool false, l.drop 5)
    else
      match l with
      | [] => none
      | c :: rest =>
        if c = '"' then
          (parseStrChars rest).map (fun p => (Json.str (String.mk p.1), p.2))
        else if c = '[' then
          match skipWs rest with
          | ']' :: r => some (Json.arr [], r)
          | l2 => (parseElems fuel l2).map (fun p => (Json.arr p.1, p.2))
        else if c = '\x7b' then
          match skipWs rest with
          | c2 :: r =>
            if c2 = '\x7d' then some (Json.obj [], r)
            else (parseMembers fuel (c2 :: r)).map (fun p => (Json.obj p.1, p.2))
          | [] => none
        else if c = '-' || c.isDigit then parseIntLit (c :: rest)
        else none

/-- Comma-separated array elements up to the closing bracket. -/
def parseElems : Nat → List Char → Option (List Json × List Char)
  | 0, _ => none
  | fuel + 1, l =>
    match parseVal fuel l with
    | none => none
    | some (v, r) =>
      match skipWs r with
      | ',' :: r2 => (parseElems fuel r2).map (fun p => (v :: p.1, p.2))
      | ']' :: r2 => some ([v], r2)
      | _ => none

/-- Comma-separated object members up to the closing brace. -/
def parseMembers : Nat → List Char → Option (JObj × List Char)
  | 0, _ => none
  | fuel + 1, l =>
    match skipWs l with
    | [] => none
    | c :: rest =>
      if c = '"' then
        match parseStrChars rest with
        | none => none
        | some (kcs, r) =>
          match skipWs r with
          | ':' :: r2 =>
            match parseVal fuel r2 with
            | none => none
            | some (v, r3) =>
              match skipWs r3 with
              | ',' :: r4 => (parseMembers fuel r4).map
                  (fun p => ((String.mk kcs, v) :: p.1, p.2))
              | c5 :: r4 =>
                if c5 = '\x7d' then some ([(String.mk kcs, v)], r4) else none
              | [] => none
          | _ => none
      else none

end

/-- Executable model of the host's `JSON.parse`, restricted to the fragment of
JSON this development ever feeds it: `null`, booleans, integer literals,
escape-free strings, arrays and objects, with arbitrary whitespace.  `none`
models a thrown `SyntaxError`; one whole value must consume the entire input
up to trailing whitespace, as `JSON.parse` requires. -/
def jsonParse (s : String) : Option Json :=
  match parseVal (s.length + 1) s.data with
  | some (v, r) => if skipWs r = [] then some v else none
  | none => none

example : jsonParse "1" = some (Json.num 1) := rfl
example : jsonParse "\x7b\"x\":1\x7d" = some (Json.obj [("x", Json.num 1)]) := rfl
example : jsonParse "\x7b\x7b\"x\":1\x7d\x7d" = none := rfl
example : jsonParse "hello" = none := rfl
example : jsonParse "\x7b\"detail\":\"bad guideline\"\x7d" =
    some (Json.obj [("detail", Json.str "bad guideline")]) := rfl

/-- JavaScript truthiness of a JSON-shaped value: `null`, `false`, `0` and the
empty string are falsy, everything else (including empty arrays and objects)
is truthy. -/
def truthy : Json → Bool
  | Json.null => false
  | Json.bool b => b
  | Json.num n => n != 0
  | Json.str s => s != ""
  | Json.arr _ => true
  | Json.obj _ => true

/-- Truthiness of a possibly-`undefined` value (`none` models `undefined`). -/
def truthyOpt : Option Json → Bool
  | none => false
  | some v => truthy v

/-- Optional-chained property access `x?.k`: defined only when `x` is an
object carrying the key; `undefined` (`none`) otherwise. -/
def jsGet : Option Json → String → Option Json
  | some (Json.obj fs), k => getKey fs k
  | _, _ => none

/-- JavaScript `a || b`: `a` when truthy, otherwise `b` (whose value is kept
even when falsy). -/
def jsOr (a b : Option Json) : Option Json :=
  if truthyOpt a then a else b

/-- First truthy value of a candidate list (`none` when there is none). -/
def firstTruthy : List (Option Json) → Option Json
  | [] => none
  | o :: rest => if truthyOpt o then o else firstTruthy rest

mutual

/-- JavaScript template-literal stringification `${v}` of a JSON-shaped value:
strings verbatim, `null`/booleans/numbers by their literal spelling, arrays
joined by commas (with `null` elements printed empty), objects as
`[object Object]`. -/
def jsStr : Json → String
  | Json.null => "null"
  | Json.bool true => "true"
  | Json.bool false => "false"
  | Json.num n => toString n
  | Json.str s => s
  | Json.arr xs => jsStrJoin xs
  | Json.obj _ => "[object Object]"
termination_by v => sizeOf v
decreasing_by
  all_goals simp_wf
  all_goals omega

/-- Comma-joined elements of an array, as `Array.prototype.toString` prints
them. -/
def jsStrJoin : List Json → String
  | [] => ""
  | [Json.null] => ""
  | [v] => jsStr v
  | Json.null :: w :: rest => "," ++ jsStrJoin (w :: rest)
  | v :: w :: rest => jsStr v ++ "," ++ jsStrJoin (w :: rest)
termination_by l => sizeOf l
decreasing_by
  all_goals simp_wf
  all_goals omega

end

/-- A caught JavaScript error, as far as `executeEvaluateRules`'s catch block
inspects it: its `message`, its constructor name, and the optional `detail`,
`data` and `response` properties (`none` models an absent property). -/
structure JSError where
  message : String
  name : String
  detail : Option Json
  data : Option Json
  response : Option Json

/-- The detail-extraction sequence of `executeEvaluateRules`'s catch block
(`Numeriquai.node.ts`, lines 341-362), statement by statement:
`errorAny?.data?.detail || errorAny?.response?.data?.detail ||
errorAny?.detail`; then, when that is falsy and `response.body` is truthy, the
body (JSON-parsed when it is a string) is probed for `detail` or
`data.detail`, a parse failure leaving the previous value in place; then, when
the value is still falsy and `response.data` is truthy, `response.data.detail`
is assigned (possibly `undefined`). -/
def extractDetailCode (parse : String → Option Json) (e : JSError) : Option Json :=
  let d1 := jsOr (jsGet e.data "detail")
      (jsOr (jsGet (jsGet e.response "data") "detail") e.detail)
  let bodyOpt := jsGet e.response "body"
  let d2 :=
    if !truthyOpt d1 && truthyOpt bodyOpt then
      match bodyOpt with
      | some (Json.str s) =>
        match parse s with
        | some b => jsOr (jsGet (some b) "detail") (jsGet (jsGet (some b) "data") "detail")
        | none => d1
      | some b => jsOr (jsGet (some b) "detail") (jsGet (jsGet (some b) "data") "detail")
      | none => d1
    else d1
  let respData := jsGet e.response "data"
  if !truthyOpt d2 && truthyOpt respData then jsGet respData "detail" else d2

/-- The reported error message (lines 341-366): the generic message, extended
by `": "` and the stringified detail when a truthy detail was extracted. -/
def normalizeErrorMessage (parse : String → Option Json) (e : JSError) : String :=
  match extractDetailCode parse e with
  | some v => if truthy v then e.message ++ ": " ++ jsStr v else e.message
  | none => e.message

/-- The error-shaped item pushed when continue-on-fail is active (lines
368-376): `error`, `errorType`, and `detail` only when a truthy detail was
extracted. -/
def errorItem (parse : String → Option Json) (e : JSError) : Json :=
  Json.obj ([("error", Json.str (normalizeErrorMessage parse e)),
             ("errorType", Json.str e.name)] ++
    (match extractDetailCode parse e with
     | some v => if truthy v then [("detail", v)] else []
     | none => []))

/-- The `numeriquaiApi` credential as `executeEvaluateRules` reads it:
`apiToken` (string, possibly empty) and the optional `apiUrl` override. -/
structure Credential where
  apiToken : String
  apiUrl : Option String

/-- The request body of lines 286-291: `reference`, `description`,
`guideline_id` and `inputs`. -/
structure AuditBody where
  reference : String
  description : String
  guideline_id : String
  inputs : JObj

/-- The `requestOptions` record of lines 304-314 handed to
`this.helpers.httpRequest`. -/
structure RequestOptions where
  method : String
  url : String
  body : AuditBody
  jsonFlag : Bool
  apiKeyHeader : String
  contentTypeHeader : String
  timeout : Nat

/-- Model of `padStart(2, '0')` applied to the decimal spelling of an hour or
minute count. -/
def pad2 (n : Nat) : String :=
  if n < 10 then "0" ++ toString n else toString n

/-- JavaScript `String.prototype.replace` with a string pattern: rewrites the
first occurrence of `pat` (characters) by `repl`, and leaves the input
unchanged when `pat` does not occur.  Only used with the non-empty pattern
`localhost`. -/
def replaceFirstL (pat repl : List Char) : List Char → List Char
  | [] => []
  | c :: rest =>
    if startsWithL pat (c :: rest) then repl ++ (c :: rest).drop pat.length
    else c :: replaceFirstL pat repl rest

/-- Substring occurrence test on character lists. -/
def containsL (pat : List Char) : List Char → Bool
  | [] => startsWithL pat []
  | c :: rest => startsWithL pat (c :: rest) || containsL pat rest

/-- Line 301: `apiEndpoint.replace('localhost', '127.0.0.1')`. -/
def rewriteLocalhost (s : String) : String :=
  String.mk (replaceFirstL "localhost".data "127.0.0.1".data s.data)

/-- The default production endpoint of line 266. -/
def defaultApiUrl : String := "https://api.numeriquai.com"

/-- Line 266: `(credentials.apiUrl as string) || 'https://api.numeriquai.com'`
-- the default applies when the credential field is absent or empty (falsy). -/
def effectiveApiUrl (cred : Credential) : String :=
  match cred.apiUrl with
  | some u => if u = "" then defaultApiUrl else u
  | none => defaultApiUrl

/-- Outcome of one `executeEvaluateRules` invocation: the returned item list,
a normalized `NodeOperationError` thrown at the boundary, or an exception that
escapes outside any catch block (un-normalized). -/
inductive EvalOutcome where
  | success (items : List Json)
  | thrown (message : String)
  | crash (message : String)

/-- A `NodeOperationError` raised inside the try block: a bare `Error` with
the given message and no `detail`, `data` or `response` payload. -/
def opError (m : String) : JSError :=
  { message := m, name := "NodeOperationError", detail := none, data := none,
    response := none }

/-- The try block of `executeEvaluateRules` (lines 256-329), with the HTTP
helper abstracted as `http`: credential check, endpoint computation, the two
validations, request construction, dispatch.  Returns the outcome of the block
together with the list of requests actually handed to the helper. -/
def evalTry (http : RequestOptions → Except JSError Json) (hh mm : Nat)
    (input : JObj) (gid : String) (cred : Option Credential) :
    Except JSError Json × List RequestOptions :=
  match cred with
  | none => (Except.error (opError "Credentials are required"), [])
  | some c =>
    if gid = "" then (Except.error (opError "Guideline ID is required"), [])
    else if c.apiToken = "" then (Except.error (opError "API Key is required"), [])
    else
      let requestBody : AuditBody :=
        { reference := "Application run N8N guideline " ++ pad2 hh ++ ":" ++ pad2 mm,
          description := "N8N application run",
          guideline_id := gid,
          inputs := input }
      let req : RequestOptions :=
        { method := "POST",
          url := rewriteLocalhost (effectiveApiUrl c ++ "/api/v1/audits/"),
          body := requestBody,
          jsonFlag := true,
          apiKeyHeader := c.apiToken,
          contentTypeHeader := "application/json",
          timeout := 30000 }
      match http req with
      | Except.ok resp => (Except.ok resp, [req])
      | Except.error e => (Except.error e, [req])

/-- One invocation of `executeEvaluateRules` (lines 248-384).  `items` holds
the `json` contents of the input items.  The read `items[0].json` happens
before the try block: with no input items it raises a `TypeError` that no
catch in the function observes, modelled as `EvalOutcome.crash`.  Errors
inside the try block flow through the detail-extraction catch: an error item
when continue-on-fail is active, a `NodeOperationError` otherwise. -/
def runEvaluate (http : RequestOptions → Except JSError Json) (hh mm : Nat)
    (items : List JObj) (gid : String) (cred : Option Credential)
    (continueOnFail : Bool) (parse : String → Option Json) :
    EvalOutcome × List RequestOptions :=
  match items with
  | [] => (EvalOutcome.crash "TypeError: Cannot read properties of undefined (reading 'json')", [])
  | input :: _ =>
    match evalTry http hh mm input gid cred with
    | (Except.ok resp, reqs) => (EvalOutcome.success [resp], reqs)
    | (Except.error e, reqs) =>
      if continueOnFail then (EvalOutcome.success [errorItem parse e], reqs)
      else (EvalOutcome.thrown ("API request failed: " ++ normalizeErrorMessage parse e), reqs)

/-- Claim C1: the merge result is the left fold of the two-object deep merge
starting from the empty object; per key of the incoming item, two non-null,
non-array objects are merged recursively, any other incoming value (arrays
included, replaced wholesale) overwrites; and the two quoted examples:
`merge([(a:(x:1)), (a:(y:2))]) = (a:(x:1,y:2))` and
`merge([(a:(x:1)), (a:5)]) = (a:5)`. -/
theorem claim_C1 :
    (∀ (parse : String → Option Json) (items : List JObj),
        mergeItems parse items = (items.map (itemPrep parse)).foldl deepMerge []) ∧
    (∀ (t s : JObj) (k : String), (s.map Prod.fst).Nodup →
        getKey (deepMerge t s) k =
          match getKey s k with
          | none => getKey t k
          | some sv =>
            some (match getKey t k, sv with
                  | some (Json.obj tf), Json.obj sf => Json.obj (deepMerge tf sf)
                  | _, _ => sv)) ∧
    (∀ (t : JObj) (k : String) (ys : List Json),
        mergeVal t k (Json.arr ys) = Json.arr ys) ∧
    (∀ parse : String → Option Json,
        mergeItems parse [[("a", Json.obj [("x", Json.num 1)])],
                          [("a", Json.obj [("y", Json.num 2)])]] =
          [("a", Json.obj [("x", Json.num 1), ("y", Json.num 2)])]) ∧
    (∀ parse : String → Option Json,
        mergeItems parse [[("a", Json.obj [("x", Json.num 1)])], [("a", Json.num 5)]] =
          [("a", Json.num 5)]) := by
  refine ⟨?_, ?_, ?_, ?_, ?_⟩
  · intro parse items
    simp [mergeItems, List.foldl_map]
  · intro t s k h
    rw [deepMerge, getKey_mergeFields, getLastVal_eq_getKey s k h]
    rcases getKey s k with _ | sv
    · rfl
    · rcases htk : getKey t k with _ | tv
      · cases sv <;> simp [mergeVal, htk]
      · cases tv <;> cases sv <;> simp [mergeVal, deepMerge, htk]
  · intro t k ys
    rcases htk : getKey t k with _ | tv
    · simp [mergeVal, htk]
    · cases tv <;> simp [mergeVal, htk]
  · intro parse
    simp [mergeItems, itemPrep, safeParseJSON, deepMerge, mergeFields_cons,
      mergeFields_nil, mergeVal, getKey, setKey]
  · intro parse
    simp [mergeItems, itemPrep, safeParseJSON, deepMerge, mergeFields_cons,
      mergeFields_nil, mergeVal, getKey, setKey]

/-- Witness for claim C1's per-key rule at a concrete target, source and key. -/
theorem claim_C1_witness :
    (([("a", Json.num 2), ("b", Json.num 3)] : JObj).map Prod.fst).Nodup ∧
    getKey (deepMerge [("a", Json.num 1)] [("a", Json.num 2), ("b", Json.num 3)]) "a" =
      match getKey [("a", Json.num 2), ("b", Json.num 3)] "a" with
      | none => getKey [("a", Json.num 1)] "a"
      | some sv =>
        some (match getKey [("a", Json.num 1)] "a", sv with
              | some (Json.obj tf), Json.obj sf => Json.obj (deepMerge tf sf)
              | _, _ => sv) :=
  ⟨by decide, claim_C1.2.1 _ _ _ (by decide)⟩

/-- Claim C2: a top-level string value whose trimmed form parses as JSON is
replaced by the parsed value; when the direct parse fails on a string wrapped
in double braces, the form with one brace stripped from each end is parsed
and, on success, replaces the value; when every attempt fails the string is
kept unchanged; non-strings pass through untouched. -/
theorem claim_C2 :
    (∀ (parse : String → Option Json) (fields : JObj),
        itemPrep parse fields =
          fields.map (fun kv => (kv.1, safeParseJSON parse kv.2))) ∧
    (∀ (parse : String → Option Json) (s : String) (v : Json),
        parse (jsTrim s) = some v → safeParseJSON parse (Json.str s) = v) ∧
    (∀ (parse : String → Option Json) (s : String) (v : Json),
        parse (jsTrim s) = none →
        (jsStartsWith (jsTrim s) "\x7b\x7b" && jsEndsWith (jsTrim s) "\x7d\x7d") = true →
        parse (sliceInner (jsTrim s)) = some v →
        safeParseJSON parse (Json.str s) = v) ∧
    (∀ (parse : String → Option Json) (s : String),
        parse (jsTrim s) = none →
        ((jsStartsWith (jsTrim s) "\x7b\x7b" && jsEndsWith (jsTrim s) "\x7d\x7d") = false ∨
          parse (sliceInner (jsTrim s)) = none) →
        safeParseJSON parse (Json.str s) = Json.str s) ∧
    (∀ (parse : String → Option Json) (v : Json),
        (∀ s, v ≠ Json.str s) → safeParseJSON parse v = v) := by
  refine ⟨fun parse fields => rfl, ?_, ?_, ?_, ?_⟩
  · intro parse s v h
    simp [safeParseJSON, h]
  · intro parse s v h1 h2 h3
    simp [safeParseJSON, h1, h2, h3]
  · intro parse s h1 h2
    rcases h2 with h2 | h2
    · simp [safeParseJSON, h1, h2]
    · by_cases hb : (jsStartsWith (jsTrim s) "\x7b\x7b" && jsEndsWith (jsTrim s) "\x7d\x7d") = true
      · simp [safeParseJSON, h1, hb, h2]
      · simp [safeParseJSON, h1, hb]
  · intro parse v h
    cases v with
    | str s => exact absurd rfl (h s)
    | null => rfl
    | bool b => rfl
    | num n => rfl
    | arr xs => rfl
    | obj fs => rfl

/-- Witness for claim C2 on the double-brace fallback path at a concrete
double-wrapped payload. -/
theorem claim_C2_witness :
    jsonParse (jsTrim "\x7b\x7b\"x\":1\x7d\x7d") = none ∧
    (jsStartsWith (jsTrim "\x7b\x7b\"x\":1\x7d\x7d") "\x7b\x7b" &&
      jsEndsWith (jsTrim "\x7b\x7b\"x\":1\x7d\x7d") "\x7d\x7d") = true ∧
    jsonParse (sliceInner (jsTrim "\x7b\x7b\"x\":1\x7d\x7d")) =
      some (Json.obj [("x", Json.num 1)]) ∧
    safeParseJSON jsonParse (Json.str "\x7b\x7b\"x\":1\x7d\x7d") =
      Json.obj [("x", Json.num 1)] :=
  ⟨rfl, rfl, rfl, claim_C2.2.2.1 _ _ _ rfl rfl rfl⟩

/-- Counterexample to claim C4 as stated: the object `X = (a: "1")` has a
top-level string value that parses as JSON, so the pre-parse step rewrites it
and `merge([X]) = (a: 1) ≠ X`. -/
theorem claim_C4_counterexample :
    mergeItems jsonParse [[("a", Json.str "1")]] = [("a", Json.num 1)] ∧
    mergeItems jsonParse [[("a", Json.str "1")]] ≠ [("a", Json.str "1")] := by
  have hp : jsonParse (jsTrim "1") = some (Json.num 1) := rfl
  have h : mergeItems jsonParse [[("a", Json.str "1")]] = [("a", Json.num 1)] := by
    simp [mergeItems, itemPrep, safeParseJSON, hp, deepMerge, mergeFields_cons,
      mergeFields_nil, mergeVal, getKey, setKey]
  refine ⟨h, ?_⟩
  rw [h]
  intro hcontra
  simp at hcontra

/-- Claim C4, amended: `merge([]) = empty`, and `merge([X]) = X` holds for an
object `X` (distinct keys) whenever the string-to-JSON pre-parse step leaves
every top-level value of `X` unchanged; in general `merge([X])` is `X` with
each top-level value passed through `safeParseJSON`. -/
theorem claim_C4_amended :
    (∀ parse : String → Option Json, mergeItems parse [] = []) ∧
    (∀ (parse : String → Option Json) (X : JObj), (X.map Prod.fst).Nodup →
        mergeItems parse [X] = itemPrep parse X) ∧
    (∀ (parse : String → Option Json) (X : JObj), (X.map Prod.fst).Nodup →
        itemPrep parse X = X → mergeItems parse [X] = X) := by
  have h2 : ∀ (parse : String → Option Json) (X : JObj), (X.map Prod.fst).Nodup →
      mergeItems parse [X] = itemPrep parse X := by
    intro parse X h
    have hkeys : ((itemPrep parse X).map Prod.fst) = X.map Prod.fst := by
      simp [itemPrep]
    show deepMerge [] (itemPrep parse X) = itemPrep parse X
    exact deepMerge_empty_target _ (by rw [hkeys]; exact h)
  refine ⟨fun parse => rfl, h2, ?_⟩
  intro parse X h hprep
  rw [h2 parse X h, hprep]

/-- Witness for claim C4 (amended) at a concrete two-key object with
non-string values. -/
theorem claim_C4_witness :
    (([("a", Json.num 1), ("b", Json.bool true)] : JObj).map Prod.fst).Nodup ∧
    itemPrep jsonParse [("a", Json.num 1), ("b", Json.bool true)] =
      [("a", Json.num 1), ("b", Json.bool true)] ∧
    mergeItems jsonParse [[("a", Json.num 1), ("b", Json.bool true)]] =
      [("a", Json.num 1), ("b", Json.bool true)] :=
  ⟨by decide, rfl, claim_C4_amended.2.2 _ _ (by decide) rfl⟩

/-- Probing of a truthy `response.body` value for `detail` or `data.detail`,
as the catch block performs it: a string body is JSON-parsed first (a parse
failure yields nothing), any other truthy body is probed directly, a falsy or
absent body yields nothing. -/
def bodyProbe (parse : String → Option Json) : Option Json → Option Json
  | none => none
  | some bv =>
    if truthy bv then
      match bv with
      | Json.str s =>
        match parse s with
        | some b => firstTruthy [jsGet (some b) "detail",
            jsGet (jsGet (some b) "data") "detail"]
        | none => none
      | _ => firstTruthy [jsGet (some bv) "detail",
          jsGet (jsGet (some bv) "data") "detail"]
    else none

/-- The extraction priority the code actually implements: `error.data.detail`,
then `response.data.detail`, then `error.detail`, then the probed
`response.body`; first truthy value wins. -/
def amendedExtract (parse : String → Option Json) (e : JSError) : Option Json :=
  firstTruthy
    [jsGet e.data "detail",
     jsGet (jsGet e.response "data") "detail",
     e.detail,
     bodyProbe parse (jsGet e.response "body")]

/-- The catch block's assignment sequence, generalised over the four
primitive reads it combines: `a` is `error.data.detail`, `c` is
`error.detail`, `rd` is `response.data` and `body` is `response.body`.
`extractDetailCode` is this chain at those four reads (see the bridge
lemma below). -/
def chainCodeStep (parse : String → Option Json) (a c rd body : Option Json) :
    Option Json :=
  let d1 := jsOr a (jsOr (jsGet rd "detail") c)
  let d2 :=
    if !truthyOpt d1 && truthyOpt body then
      match body with
      | some (Json.str s) =>
        match parse s with
        | some b2 => jsOr (jsGet (some b2) "detail")
            (jsGet (jsGet (some b2) "data") "detail")
        | none => d1
      | some b2 => jsOr (jsGet (some b2) "detail")
          (jsGet (jsGet (some b2) "data") "detail")
      | none => d1
    else d1
  if !truthyOpt d2 && truthyOpt rd then jsGet rd "detail" else d2

/-- The message the amended extraction order produces. -/
def amendedMessage (parse : String → Option Json) (e : JSError) : String :=
  match amendedExtract parse e with
  | some v => e.message ++ ": " ++ jsStr v
  | none => e.message

/-- Modelled from the claim (C3): the extraction order the claim states --
(a) the `detail` field on the error's structured data (`error.data.detail`),
(b) the `detail` field under `response.data`, (c) the `detail` or
`data.detail` field of the JSON-parsed `response.body` string; the first
successful extraction wins. -/
def claimedExtract (parse : String → Option Json) (e : JSError) : Option Json :=
  firstTruthy
    [jsGet e.data "detail",
     jsGet (jsGet e.response "data") "detail",
     match jsGet e.response "body" with
     | some (Json.str s) =>
       match parse s with
       | some b => firstTruthy [jsGet (some b) "detail",
           jsGet (jsGet (some b) "data") "detail"]
       | none => none
     | _ => none]

/-- Modelled from the claim (C3): the final message under the claimed order. -/
def claimedMessage (parse : String → Option Json) (e : JSError) : String :=
  match claimedExtract parse e with
  | some v => e.message ++ ": " ++ jsStr v
  | none => e.message

/-- An error carrying only a plain `detail` property, as a thrown object like
`new Error('boom')` decorated with `error.detail = 'D'` would. -/
def errC3 : JSError :=
  { message := "boom", name := "Error", detail := some (Json.str "D"),
    data := none, response := none }

/-- The client-side reification of an HTTP 422 response whose body is the
string `\x7b"detail":"bad guideline"\x7d`. -/
def err422 : JSError :=
  { message := "Request failed with status code 422", name := "NodeApiError",
    detail := none, data := none,
    response := some (Json.obj
      [("body", Json.str "\x7b\"detail\":\"bad guideline\"\x7d")]) }

theorem jsGet_none (k : String) : jsGet none k = none := rfl

theorem jsGet_null (k : String) : jsGet (some Json.null) k = none := rfl

theorem jsGet_bool (b : Bool) (k : String) : jsGet (some (Json.bool b)) k = none := rfl

theorem jsGet_num (n : Int) (k : String) : jsGet (some (Json.num n)) k = none := rfl

theorem jsGet_str (s k : String) : jsGet (some (Json.str s)) k = none := rfl

theorem jsGet_arr (xs : List Json) (k : String) : jsGet (some (Json.arr xs)) k = none := rfl

theorem truthyOpt_none : truthyOpt none = false := rfl

theorem truthyOpt_some (v : Json) : truthyOpt (some v) = truthy v := rfl

theorem truthyOpt_jsOr (x y : Option Json) :
    truthyOpt (jsOr x y) = (truthyOpt x || truthyOpt y) := by
  by_cases h : truthyOpt x <;> simp [jsOr, h]

theorem jsOr_pos {x : Option Json} (y : Option Json) (h : truthyOpt x = true) :
    jsOr x y = x := by
  simp [jsOr, h]

theorem jsOr_neg {x : Option Json} (y : Option Json) (h : truthyOpt x = false) :
    jsOr x y = y := by
  simp [jsOr, h]

/-- Bridge: the catch block's extraction is the generic chain at the four
primitive reads. -/
theorem extractDetailCode_eq_chain (parse : String → Option Json) (e : JSError) :
    extractDetailCode parse e =
      chainCodeStep parse (jsGet e.data "detail") e.detail
        (jsGet e.response "data") (jsGet e.response "body") := rfl

/-- The truthy part of the generic chain is the first truthy value of the
amended priority list. -/
theorem chain_filter (parse : String → Option Json) (a c rd body : Option Json) :
    (if truthyOpt (chainCodeStep parse a c rd body)
      then chainCodeStep parse a c rd body else none) =
      firstTruthy [a, jsGet rd "detail", c, bodyProbe parse body] := by
  by_cases ha : truthyOpt a = true
  · simp only [chainCodeStep]
    rw [jsOr_pos _ ha]
    simp [firstTruthy, ha]
  · rw [Bool.not_eq_true] at ha
    simp only [chainCodeStep]
    rw [jsOr_neg _ ha]
    by_cases hb : truthyOpt (jsGet rd "detail") = true
    · rw [jsOr_pos _ hb]
      simp [firstTruthy, ha, hb]
    · rw [Bool.not_eq_true] at hb
      rw [jsOr_neg _ hb]
      by_cases hc : truthyOpt c = true
      · simp [firstTruthy, ha, hb, hc]
      · rw [Bool.not_eq_true] at hc
        rcases body with _ | bv
        · by_cases hrd : truthyOpt rd = true <;>
            simp [bodyProbe, firstTruthy, ha, hb, hc, hrd, truthyOpt_none, truthyOpt_some]
        · by_cases htb : truthy bv = true
          · cases bv with
            | str s =>
              rcases hp : parse s with _ | pb
              · by_cases hrd : truthyOpt rd = true <;>
                  simp [bodyProbe, firstTruthy, ha, hb, hc, hrd, htb, hp, truthyOpt_none, truthyOpt_some]
              · by_cases hdet : truthyOpt (jsGet (some pb) "detail") = true
                · simp [bodyProbe, firstTruthy, jsOr, ha, hb, hc, hdet, htb, hp,
                    truthyOpt_none, truthyOpt_some]
                · rw [Bool.not_eq_true] at hdet
                  by_cases hdd : truthyOpt (jsGet (jsGet (some pb) "data") "detail") = true
                  · simp [bodyProbe, firstTruthy, jsOr, ha, hb, hc, hdet, hdd, htb,
                      hp, truthyOpt_none, truthyOpt_some]
                  · rw [Bool.not_eq_true] at hdd
                    by_cases hrd : truthyOpt rd = true <;>
                      simp [bodyProbe, firstTruthy, jsOr, ha, hb, hc, hdet, hdd,
                        hrd, htb, hp, truthyOpt_none, truthyOpt_some]
            | null => simp [truthy] at htb
            | bool b =>
              by_cases hrd : truthyOpt rd = true <;>
                simp [bodyProbe, firstTruthy, jsOr, jsGet_none, jsGet_null, jsGet_bool,
                  jsGet_num, jsGet_str, jsGet_arr, ha, hb, hc, hrd, htb,
                  truthyOpt_none, truthyOpt_some]
            | num n =>
              by_cases hrd : truthyOpt rd = true <;>
                simp [bodyProbe, firstTruthy, jsOr, jsGet_none, jsGet_null, jsGet_bool,
                  jsGet_num, jsGet_str, jsGet_arr, ha, hb, hc, hrd, htb,
                  truthyOpt_none, truthyOpt_some]
            | arr xs =>
              by_cases hrd : truthyOpt rd = true <;>
                simp [bodyProbe, firstTruthy, jsOr, jsGet_none, jsGet_null, jsGet_bool,
                  jsGet_num, jsGet_str, jsGet_arr, ha, hb, hc, hrd, htb,
                  truthyOpt_none, truthyOpt_some]
            | obj fs =>
              by_cases hdet : truthyOpt (jsGet (some (Json.obj fs)) "detail") = true
              · simp [bodyProbe, firstTruthy, jsOr, ha, hb, hc, hdet, htb, truthyOpt_none, truthyOpt_some]
              · rw [Bool.not_eq_true] at hdet
                by_cases hdd : truthyOpt
                    (jsGet (jsGet (some (Json.obj fs)) "data") "detail") = true
                · simp [bodyProbe, firstTruthy, jsOr, ha, hb, hc, hdet, hdd, htb,
                    truthyOpt_none, truthyOpt_some]
                · rw [Bool.not_eq_true] at hdd
                  by_cases hrd : truthyOpt rd = true <;>
                    simp [bodyProbe, firstTruthy, jsOr, ha, hb, hc, hdet, hdd, hrd,
                      htb, truthyOpt_none, truthyOpt_some]
          · rw [Bool.not_eq_true] at htb
            by_cases hrd : truthyOpt rd = true <;>
              simp [bodyProbe, firstTruthy, ha, hb, hc, hrd, htb, truthyOpt_none, truthyOpt_some]

/-- The truthy part of the code's extracted detail coincides with the amended
priority chain. -/
theorem truthyFilter_extract (parse : String → Option Json) (e : JSError) :
    (if truthyOpt (extractDetailCode parse e) then extractDetailCode parse e else none) =
      amendedExtract parse e := by
  rw [extractDetailCode_eq_chain, chain_filter, amendedExtract]

/-- Counterexample to claim C3 as stated: an error carrying only a plain
`detail` property.  The claimed three-source order extracts nothing and
predicts the bare generic message, but the code also consults
`errorAny?.detail` and reports `boom: D`. -/
theorem claim_C3_counterexample :
    normalizeErrorMessage jsonParse errC3 = "boom: D" ∧
    claimedMessage jsonParse errC3 = "boom" ∧
    normalizeErrorMessage jsonParse errC3 ≠ claimedMessage jsonParse errC3 := by
  have hs : jsStr (Json.str "D") = "D" := by simp [jsStr]
  have h1 : normalizeErrorMessage jsonParse errC3 = "boom: D" := by
    simp [normalizeErrorMessage, extractDetailCode, errC3, jsGet, jsOr,
      truthyOpt, truthy, hs]
  have h2 : claimedMessage jsonParse errC3 = "boom" := by
    simp [claimedMessage, claimedExtract, errC3, jsGet, firstTruthy, truthyOpt]
  refine ⟨h1, h2, ?_⟩
  rw [h1, h2]
  decide

/-- Claim C3, amended: the code extracts the first truthy detail in the order
`error.data.detail`, `response.data.detail`, `error.detail`, then the `detail`
or `data.detail` of the (JSON-parsed when a string) truthy `response.body`;
the reported message is the generic message extended by `": detail"` exactly
when such a detail exists; and the quoted 422 example reports a message
ending in `: bad guideline`. -/
theorem claim_C3_amended :
    (∀ (parse : String → Option Json) (e : JSError),
        normalizeErrorMessage parse e = amendedMessage parse e) ∧
    normalizeErrorMessage jsonParse err422 =
      "Request failed with status code 422: bad guideline" ∧
    jsEndsWith (normalizeErrorMessage jsonParse err422) ": bad guideline" = true := by
  have hmain : ∀ (parse : String → Option Json) (e : JSError),
      normalizeErrorMessage parse e = amendedMessage parse e := by
    intro parse e
    have hfil := truthyFilter_extract parse e
    have hmsg : normalizeErrorMessage parse e =
        match (if truthyOpt (extractDetailCode parse e)
               then extractDetailCode parse e else none) with
        | some v => e.message ++ ": " ++ jsStr v
        | none => e.message := by
      rw [normalizeErrorMessage]
      rcases hx : extractDetailCode parse e with _ | v
      · simp [truthyOpt]
      · by_cases hv : truthy v
        · simp [truthyOpt, hv]
        · simp [truthyOpt, hv]
    rw [hmsg, hfil, amendedMessage]
  refine ⟨hmain, ?_, ?_⟩
  · have hp : jsonParse "\x7b\"detail\":\"bad guideline\"\x7d" =
        some (Json.obj [("detail", Json.str "bad guideline")]) := rfl
    have hs : jsStr (Json.str "bad guideline") = "bad guideline" := by simp [jsStr]
    simp [normalizeErrorMessage, extractDetailCode, err422, jsGet, getKey, jsOr,
      truthyOpt, truthy, hp, hs]
  · have hp : jsonParse "\x7b\"detail\":\"bad guideline\"\x7d" =
        some (Json.obj [("detail", Json.str "bad guideline")]) := rfl
    have hs : jsStr (Json.str "bad guideline") = "bad guideline" := by simp [jsStr]
    have h1 : normalizeErrorMessage jsonParse err422 =
        "Request failed with status code 422: bad guideline" := by
      simp [normalizeErrorMessage, extractDetailCode, err422, jsGet, getKey, jsOr,
        truthyOpt, truthy, hp, hs]
    rw [h1]
    decide

/-- The request `executeEvaluateRules` constructs for a validated call. -/
def auditRequest (hh mm : Nat) (input : JObj) (gid : String) (c : Credential) :
    RequestOptions :=
  { method := "POST",
    url := rewriteLocalhost (effectiveApiUrl c ++ "/api/v1/audits/"),
    body := { reference := "Application run N8N guideline " ++ pad2 hh ++ ":" ++ pad2 mm,
              description := "N8N application run",
              guideline_id := gid,
              inputs := input },
    jsonFlag := true,
    apiKeyHeader := c.apiToken,
    contentTypeHeader := "application/json",
    timeout := 30000 }

/-- A validated call hands exactly one request, the audit request, to the
HTTP helper -- whether the helper succeeds or fails. -/
theorem evalTry_trace (http : RequestOptions → Except JSError Json) (hh mm : Nat)
    (input : JObj) (gid : String) (c : Credential)
    (hgid : gid ≠ "") (htok : c.apiToken ≠ "") :
    (evalTry http hh mm input gid (some c)).2 = [auditRequest hh mm input gid c] := by
  rw [evalTry]
  simp only [hgid, htok, if_false, if_neg]
  split <;> rfl

/-- The request trace of an invocation with at least one input item is the
trace of its try block. -/
theorem runEvaluate_trace (http : RequestOptions → Except JSError Json)
    (hh mm : Nat) (input : JObj) (rest : List JObj) (gid : String)
    (cred : Option Credential) (cof : Bool) (parse : String → Option Json) :
    (runEvaluate http hh mm (input :: rest) gid cred cof parse).2 =
      (evalTry http hh mm input gid cred).2 := by
  rcases h : evalTry http hh mm input gid cred with ⟨res, reqs⟩
  rcases res with e | resp <;> cases cof <;> simp [runEvaluate, h]

/-- A bare `NodeOperationError` carries no detail anywhere, so its message is
reported as-is. -/
theorem normalizeErrorMessage_opError (parse : String → Option Json) (v : String) :
    normalizeErrorMessage parse (opError v) = v := by
  simp [normalizeErrorMessage, extractDetailCode, opError, jsGet, jsOr, truthyOpt]

/-- Claim C5: an empty guideline id or an empty API token makes the call fail
with a local validation error before any request reaches the HTTP helper. -/
theorem claim_C5 :
    ∀ (http : RequestOptions → Except JSError Json) (hh mm : Nat) (input : JObj)
      (rest : List JObj) (gid : String) (c : Credential) (cof : Bool)
      (parse : String → Option Json),
      gid = "" ∨ c.apiToken = "" →
      (runEvaluate http hh mm (input :: rest) gid (some c) cof parse).2 = [] ∧
      ∃ v, (v = "Guideline ID is required" ∨ v = "API Key is required") ∧
        (runEvaluate http hh mm (input :: rest) gid (some c) cof parse).1 =
          (if cof then EvalOutcome.success [errorItem parse (opError v)]
           else EvalOutcome.thrown ("API request failed: " ++ v)) := by
  intro http hh mm input rest gid c cof parse h
  by_cases hg : gid = ""
  · refine ⟨?_, "Guideline ID is required", Or.inl rfl, ?_⟩ <;>
      cases cof <;>
        simp [runEvaluate, evalTry, hg, normalizeErrorMessage_opError]
  · rcases h with h | h
    · exact absurd h hg
    · refine ⟨?_, "API Key is required", Or.inr rfl, ?_⟩ <;>
        cases cof <;>
          simp [runEvaluate, evalTry, hg, h, normalizeErrorMessage_opError]

/-- Witness for claim C5 at an empty guideline id. -/
theorem claim_C5_witness :
    ("" = "" ∨ ("t" : String) = "") ∧
    ((runEvaluate (fun _ => Except.ok Json.null) 9 5 [[("a", Json.num 1)]] ""
        (some { apiToken := "t", apiUrl := none }) false jsonParse).2 = [] ∧
      ∃ v, (v = "Guideline ID is required" ∨ v = "API Key is required") ∧
        (runEvaluate (fun _ => Except.ok Json.null) 9 5 [[("a", Json.num 1)]] ""
            (some { apiToken := "t", apiUrl := none }) false jsonParse).1 =
          (if false then EvalOutcome.success [errorItem jsonParse (opError v)]
           else EvalOutcome.thrown ("API request failed: " ++ v))) :=
  ⟨Or.inl rfl,
    claim_C5 (fun _ => Except.ok Json.null) 9 5 [("a", Json.num 1)] [] ""
      { apiToken := "t", apiUrl := none } false jsonParse (Or.inl rfl)⟩

/-- Claim C6 (code divergence): with an empty input item list the read
`items[0].json` precedes the try block and throws an un-normalized
`TypeError`; with at least one input item every outcome is either the
response items or a normalized thrown error, never an escaped exception. -/
theorem claim_C6 :
    ∀ (http : RequestOptions → Except JSError Json) (hh mm : Nat) (gid : String)
      (cred : Option Credential) (cof : Bool) (parse : String → Option Json),
      runEvaluate http hh mm [] gid cred cof parse =
        (EvalOutcome.crash
          "TypeError: Cannot read properties of undefined (reading 'json')", []) ∧
      (∀ resp, (runEvaluate http hh mm [] gid cred cof parse).1 ≠
          EvalOutcome.success resp) ∧
      ∀ (input : JObj) (rest : List JObj) (m : String),
        (runEvaluate http hh mm (input :: rest) gid cred cof parse).1 ≠
          EvalOutcome.crash m := by
  intro http hh mm gid cred cof parse
  refine ⟨rfl, ?_, ?_⟩
  · intro resp
    simp [runEvaluate]
  · intro input rest m
    rcases h : evalTry http hh mm input gid cred with ⟨res, reqs⟩
    rcases res with e | resp <;> cases cof <;> simp [runEvaluate, h]

/-- Witness for claim C6's crash half at a concrete invocation with no input
items. -/
theorem claim_C6_witness :
    runEvaluate (fun _ => Except.ok Json.null) 9 5 [] "g"
        (some { apiToken := "t", apiUrl := none }) false jsonParse =
      (EvalOutcome.crash
        "TypeError: Cannot read properties of undefined (reading 'json')", []) :=
  (claim_C6 (fun _ => Except.ok Json.null) 9 5 "g"
    (some { apiToken := "t", apiUrl := none }) false jsonParse).1

/-- Claim C7: a validated call dispatches exactly one POST request, to the
(localhost-rewritten) endpoint `apiUrl ++ /api/v1/audits/` with the default
production `apiUrl` when the credential does not override it, carrying the
`X-API-Key` and JSON content-type headers, a 30-second timeout, and the body
whose fields are exactly the HH:MM-stamped reference, the fixed description,
the validated guideline id, and the unmodified first input item. -/
theorem claim_C7 :
    ∀ (http : RequestOptions → Except JSError Json) (hh mm : Nat) (input : JObj)
      (rest : List JObj) (gid : String) (c : Credential) (cof : Bool)
      (parse : String → Option Json),
      gid ≠ "" → c.apiToken ≠ "" →
      (runEvaluate http hh mm (input :: rest) gid (some c) cof parse).2 =
        [auditRequest hh mm input gid c] ∧
      (auditRequest hh mm input gid c).method = "POST" ∧
      (auditRequest hh mm input gid c).url =
        rewriteLocalhost (effectiveApiUrl c ++ "/api/v1/audits/") ∧
      (c.apiUrl = none → effectiveApiUrl c = "https://api.numeriquai.com") ∧
      (∀ u, c.apiUrl = some u → u ≠ "" → effectiveApiUrl c = u) ∧
      (auditRequest hh mm input gid c).apiKeyHeader = c.apiToken ∧
      (auditRequest hh mm input gid c).contentTypeHeader = "application/json" ∧
      (auditRequest hh mm input gid c).timeout = 30000 ∧
      (auditRequest hh mm input gid c).body =
        { reference := "Application run N8N guideline " ++ pad2 hh ++ ":" ++ pad2 mm,
          description := "N8N application run",
          guideline_id := gid,
          inputs := input } := by
  intro http hh mm input rest gid c cof parse hgid htok
  refine ⟨?_, rfl, rfl, ?_, ?_, rfl, rfl, rfl, rfl⟩
  · rw [runEvaluate_trace, evalTry_trace http hh mm input gid c hgid htok]
  · intro hnone
    simp [effectiveApiUrl, hnone, defaultApiUrl]
  · intro u hu hne
    simp [effectiveApiUrl, hu, hne, defaultApiUrl]

/-- Witness for claim C7 at a concrete validated call. -/
theorem claim_C7_witness :
    ("g" : String) ≠ "" ∧
    ({ apiToken := "t", apiUrl := none } : Credential).apiToken ≠ "" ∧
    (runEvaluate (fun _ => Except.ok Json.null) 9 5 [[("a", Json.num 1)]] "g"
        (some { apiToken := "t", apiUrl := none }) false jsonParse).2 =
      [auditRequest 9 5 [("a", Json.num 1)] "g" { apiToken := "t", apiUrl := none }] :=
  ⟨by decide, by decide,
    (claim_C7 (fun _ => Except.ok Json.null) 9 5 [("a", Json.num 1)] [] "g"
      { apiToken := "t", apiUrl := none } false jsonParse (by decide) (by decide)).1⟩

theorem startsWithL_nil_of_ne (pat : List Char) (h : pat ≠ []) :
    startsWithL pat [] = false := by
  cases pat with
  | nil => exact absurd rfl h
  | cons p ps => rfl

theorem startsWithL_append_ext (pat : List Char) :
    ∀ (u w : List Char), startsWithL pat u = true → startsWithL pat (u ++ w) = true := by
  induction pat with
  | nil => intro u w _; rfl
  | cons p ps ih =>
    intro u w h
    cases u with
    | nil => simp [startsWithL] at h
    | cons c cs =>
      simp only [startsWithL, Bool.and_eq_true, decide_eq_true_eq] at h
      simp only [List.cons_append, startsWithL, Bool.and_eq_true, decide_eq_true_eq]
      exact ⟨h.1, ih cs w h.2⟩

theorem startsWithL_exists (pat : List Char) :
    ∀ l : List Char, startsWithL pat l = true → ∃ t, l = pat ++ t := by
  induction pat with
  | nil => intro l _; exact ⟨l, rfl⟩
  | cons p ps ih =>
    intro l h
    cases l with
    | nil => simp [startsWithL] at h
    | cons c cs =>
      simp only [startsWithL, Bool.and_eq_true, decide_eq_true_eq] at h
      obtain ⟨t, ht⟩ := ih cs h.2
      exact ⟨t, by rw [h.1, ht]; rfl⟩

theorem replaceFirstL_of_not_contains (pat repl : List Char) :
    ∀ l : List Char, containsL pat l = false → replaceFirstL pat repl l = l := by
  intro l
  induction l with
  | nil => intro _; rfl
  | cons c rest ih =>
    intro h
    simp only [containsL, Bool.or_eq_false_iff] at h
    simp [replaceFirstL, h.1, ih h.2]

theorem replaceFirstL_decomp (pat repl : List Char) (hpat : pat ≠ []) :
    ∀ l : List Char, containsL pat l = true →
      ∃ p q : List Char, l = p ++ pat ++ q ∧
        replaceFirstL pat repl l = p ++ repl ++ q ∧ containsL pat p = false := by
  intro l
  induction l with
  | nil =>
    intro h
    rw [containsL, startsWithL_nil_of_ne pat hpat] at h
    exact absurd h (by simp)
  | cons c rest ih =>
    intro h
    by_cases hs : startsWithL pat (c :: rest) = true
    · obtain ⟨t, ht⟩ := startsWithL_exists pat (c :: rest) hs
      refine ⟨[], t, by simpa using ht, ?_, ?_⟩
      · rw [replaceFirstL, if_pos hs, ht]
        simp [List.drop_left]
      · rw [containsL, startsWithL_nil_of_ne pat hpat]
    · rw [containsL, Bool.or_eq_true] at h
      rcases h with h | h
      · exact absurd h hs
      · obtain ⟨p, q, hl, hr, hp⟩ := ih h
        refine ⟨c :: p, q, by rw [hl]; simp, ?_, ?_⟩
        · rw [replaceFirstL, if_neg hs, hr]
          simp
        · rw [containsL, Bool.or_eq_false_iff]
          refine ⟨?_, hp⟩
          by_contra hcp
          rw [Bool.not_eq_false] at hcp
          have : startsWithL pat ((c :: p) ++ (pat ++ q)) = true :=
            startsWithL_append_ext pat (c :: p) (pat ++ q) hcp
          rw [show (c :: p) ++ (pat ++ q) = c :: rest by rw [hl]; simp] at this
          exact hs this

/-- Claim C8: an endpoint containing the literal substring `localhost` is
dispatched with that (first) occurrence rewritten to `127.0.0.1`; endpoints
without it are dispatched unchanged; and the dispatched URL of a validated
call is exactly the rewritten endpoint. -/
theorem claim_C8 :
    (∀ l : List Char, containsL ("localhost".data) l = false →
        replaceFirstL ("localhost".data) ("127.0.0.1".data) l = l) ∧
    (∀ l : List Char, containsL ("localhost".data) l = true →
        ∃ p q : List Char, l = p ++ "localhost".data ++ q ∧
          replaceFirstL ("localhost".data) ("127.0.0.1".data) l =
            p ++ "127.0.0.1".data ++ q ∧
          containsL ("localhost".data) p = false) ∧
    (∀ s : String, rewriteLocalhost s =
        String.mk (replaceFirstL ("localhost".data) ("127.0.0.1".data) s.data)) ∧
    (∀ (http : RequestOptions → Except JSError Json) (hh mm : Nat) (input : JObj)
        (rest : List JObj) (gid : String) (c : Credential) (cof : Bool)
        (parse : String → Option Json), gid ≠ "" → c.apiToken ≠ "" →
        (runEvaluate http hh mm (input :: rest) gid (some c) cof parse).2.map
            (fun r => r.url) =
          [rewriteLocalhost (effectiveApiUrl c ++ "/api/v1/audits/")]) := by
  refine ⟨replaceFirstL_of_not_contains _ _,
    replaceFirstL_decomp _ _ (by decide), fun s => rfl, ?_⟩
  intro http hh mm input rest gid c cof parse hgid htok
  rw [runEvaluate_trace, evalTry_trace http hh mm input gid c hgid htok]
  rfl

/-- Witness for claim C8 at a concrete localhost endpoint. -/
theorem claim_C8_witness :
    containsL ("localhost".data) ("http://localhost:8000/api/v1/audits/".data) = true ∧
    (∃ p q : List Char,
      "http://localhost:8000/api/v1/audits/".data = p ++ "localhost".data ++ q ∧
      replaceFirstL ("localhost".data) ("127.0.0.1".data)
          ("http://localhost:8000/api/v1/audits/".data) =
        p ++ "127.0.0.1".data ++ q ∧
      containsL ("localhost".data) p = false) :=
  ⟨by decide, claim_C8.2.1 _ (by decide)⟩

/-- Claim C10: only the first input item feeds the dispatched request and the
outcome -- replacing every later item changes nothing, and every dispatched
request carries the first item's json as `inputs`. -/
theorem claim_C10 :
    ∀ (http : RequestOptions → Except JSError Json) (hh mm : Nat) (input : JObj)
      (rest rest' : List JObj) (gid : String) (cred : Option Credential)
      (cof : Bool) (parse : String → Option Json),
      runEvaluate http hh mm (input :: rest) gid cred cof parse =
        runEvaluate http hh mm (input :: rest') gid cred cof parse ∧
      ∀ r, r ∈ (runEvaluate http hh mm (input :: rest) gid cred cof parse).2 →
        r.body.inputs = input := by
  intro http hh mm input rest rest' gid cred cof parse
  refine ⟨rfl, ?_⟩
  intro r hr
  rw [runEvaluate_trace] at hr
  rcases cred with _ | c
  · simp [evalTry] at hr
  · by_cases hg : gid = ""
    · simp [evalTry, hg] at hr
    · by_cases ht : c.apiToken = ""
      · simp [evalTry, hg, ht] at hr
      · rw [evalTry_trace http hh mm input gid c hg ht] at hr
        simp only [List.mem_singleton] at hr
        rw [hr]
        rfl

/-- Witness for claim C10 at a concrete two-item input. -/
theorem claim_C10_witness :
    runEvaluate (fun _ => Except.ok Json.null) 9 5
        [[("a", Json.num 1)], [("b", Json.num 2)]] "g"
        (some { apiToken := "t", apiUrl := none }) false jsonParse =
      runEvaluate (fun _ => Except.ok Json.null) 9 5 [[("a", Json.num 1)]] "g"
        (some { apiToken := "t", apiUrl := none }) false jsonParse ∧
    (auditRequest 9 5 [("a", Json.num 1)] "g"
        { apiToken := "t", apiUrl := none }).body.inputs = [("a", Json.num 1)] :=
  ⟨(claim_C10 (fun _ => Except.ok Json.null) 9 5 [("a", Json.num 1)]
      [[("b", Json.num 2)]] [] "g" (some { apiToken := "t", apiUrl := none })
      false jsonParse).1,
   (claim_C10 (fun _ => Except.ok Json.null) 9 5 [("a", Json.num 1)]
      [[("b", Json.num 2)]] [] "g" (some { apiToken := "t", apiUrl := none })
      false jsonParse).2 _
      (by
        rw [runEvaluate_trace]
        rw [evalTry_trace _ _ _ _ _ _ (by decide) (by decide)]
        exact List.mem_singleton.mpr rfl)⟩

/-- Claim C9: the merge pipeline is total and always yields an object -- the
defensive array normalisation (first element, or the empty object for an
empty array) never turns into a user-facing error. -/
theorem claim_C9 :
    (∀ (parse : String → Option Json) (items : List JObj),
        ∃ fields : JObj, flatMergeResult parse items = Json.obj fields) ∧
    (∀ (x : Json) (xs : List Json), normalizeMergeResult (Json.arr (x :: xs)) = x) ∧
    normalizeMergeResult (Json.arr []) = Json.obj [] := by
  refine ⟨?_, fun x xs => rfl, rfl⟩
  intro parse items
  exact ⟨mergeItems parse items, rfl⟩

end Numeriquai
